import Mathlib

/-!
Shallow embedding of the rule-resource synchronization layer of
`roo-rules-server`, covering both source variants:

* the Remote Repository variant (`src/index.ts`): GitHub listing with a
  stored ETag, per-document downloads, a polling timer, and MCP
  list/read handlers built over a mutable `cachedRules`/`lastEtag` pair;
* the Local Directory variant (the second source file): synchronous full
  rebuilds from a directory on every request.

External effects (HTTP responses, the filesystem) are passed in as
explicit `World`/`Dir` values; the mutable module-level state of the
source becomes explicit state passing.
-/

set_option autoImplicit false

namespace RooRules

/-! ### JavaScript regex character classes

The title scan in both source files uses the regex `/^#\s+(.+)$/` and
`String.prototype.trim`.  `jsWs` is the `\s` class (which coincides with
the character set removed by `trim`); `dotChar` is the `.` class, which
excludes the four line terminators. -/

/-- The JavaScript `\s` class (also the set stripped by `String.trim`). -/
def jsWs (c : Char) : Bool :=
  c = ' ' || c = '\t' || c = '\n' || c.toNat = 0x0b || c.toNat = 0x0c || c = '\r' ||
  c.toNat = 0xa0 || c.toNat = 0x1680 ||
  (0x2000 ≤ c.toNat && c.toNat ≤ 0x200a) ||
  c.toNat = 0x2028 || c.toNat = 0x2029 || c.toNat = 0x202f || c.toNat = 0x205f ||
  c.toNat = 0x3000 || c.toNat = 0xfeff

/-- The JavaScript `.` class (no `m`/`s` flags): anything but a line terminator. -/
def dotChar (c : Char) : Bool :=
  !(c = '\n' || c = '\r' || c.toNat = 0x2028 || c.toNat = 0x2029)

/-- `String.prototype.trim` on a character list. -/
def jsTrimL (l : List Char) : List Char :=
  ((l.dropWhile jsWs).reverse.dropWhile jsWs).reverse

/-- Matcher for the regex fragment `\s*(.+)$` with the greedy backtracking
semantics of the JavaScript engine: `\s*` is extended as far as a match of
`(.+)$` remains possible; the capture group is returned. -/
def matchRest : List Char → Option (List Char)
  | [] => none
  | c :: rest =>
    if jsWs c then
      match matchRest rest with
      | some g => some g
      | none => if (c :: rest).all dotChar then some (c :: rest) else none
    else
      if (c :: rest).all dotChar then some (c :: rest) else none

/-- Matcher for `/^#\s+(.+)$/` applied to one line: a `#`, one mandatory
whitespace character, then `\s*(.+)$` on the remainder; returns the
capture group. -/
def h1Capture : List Char → Option (List Char)
  | a :: c :: rest => if a = '#' ∧ jsWs c then matchRest rest else none
  | _ => none

/-- `content.split('\n')` on a character list: `[] ↦ [[]]`, and a separator
between every two fragments. -/
def splitOnNl : List Char → List (List Char)
  | [] => [[]]
  | c :: rest =>
    if c = '\n' then [] :: splitOnNl rest
    else
      match splitOnNl rest with
      | l :: ls => (c :: l) :: ls
      | [] => [[c]]

/-- `filename.replace('.md', '')`: JavaScript `replace` with a string
pattern removes only the first occurrence of the substring. -/
def removeFirstMd : List Char → List Char
  | [] => []
  | c :: rest =>
    if c = '.' ∧ rest.take 2 = ['m', 'd'] then rest.drop 2
    else c :: removeFirstMd rest

/-- `extractTitle(content, filename)` from `src/index.ts` (the Local
Directory source file inlines the identical loop): scan the lines for the
first match of `/^#\s+(.+)$/`, return the trimmed capture group, else
`filename.replace('.md', '')`. -/
def extractTitle (content filename : String) : String :=
  match (splitOnNl content.data).findSome?
      (fun line => (h1Capture line).map (fun g => String.mk (jsTrimL g))) with
  | some t => t
  | none => String.mk (removeFirstMd filename.data)

/-- `String.prototype.endsWith` (JavaScript). -/
def jsEndsWith (s p : String) : Bool :=
  p.data.isSuffixOf s.data

/-- Paraphrase of the spec's fallback wording, for comparison with
`extractTitle`: "the document name with its markdown extension removed". -/
def mdExtensionStripped (name : String) : String :=
  if jsEndsWith name ".md" then String.mk (name.data.take (name.data.length - 3))
  else name

/-! ### JavaScript plain objects used as string-keyed maps

`cachedRules` / the `rules` accumulators are plain objects indexed by
filename.  An assignment `rules[k] = v` overwrites in place when the key
exists (keeping its position) and appends otherwise; a read `rules[k]`
returns the stored value or `undefined`. -/

/-- `rules[k] = v` on a JavaScript object rendered as an entry list. -/
def setEntry {α : Type} (rs : List (String × α)) (k : String) (v : α) :
    List (String × α) :=
  if rs.any (fun p => p.1 = k) then
    rs.map (fun p => if p.1 = k then (k, v) else p)
  else rs ++ [(k, v)]

/-- `rules[k]` on a JavaScript object rendered as an entry list. -/
def lookupEntry {α : Type} : List (String × α) → String → Option α
  | [], _ => none
  | (k, v) :: rest, n => if k = n then some v else lookupEntry rest n

/-! ### The WHATWG URL constructor, as used by the read handlers

Both read handlers do `new URL(request.params.uri)` followed by
`url.pathname.replace(/^\//, '')`.  `urlPathname` models the library
constructor on the inputs the handlers see: it fails (the constructor
throws a `TypeError`) when the string has no valid `scheme:` head, and
otherwise yields the pathname — for a non-special scheme, everything
from the first `/` after the `//`-authority, or the opaque remainder
when no `//` follows the colon. -/

def schemeTailChar (c : Char) : Bool :=
  c.isAlphanum || c = '+' || c = '-' || c = '.'

/-- Split a character list at its first `:`, if any. -/
def splitAtColon : List Char → Option (List Char × List Char)
  | [] => none
  | c :: rest =>
    if c = ':' then some ([], rest)
    else (splitAtColon rest).map (fun p => (c :: p.1, p.2))

/-- Modelled WHATWG `new URL(s).pathname`; `none` means the constructor
throws. -/
def urlPathname (s : String) : Option String :=
  match splitAtColon s.data with
  | none => none
  | some (scheme, rest) =>
    match scheme with
    | [] => none
    | c :: cs =>
      if c.isAlpha && cs.all schemeTailChar then
        match rest with
        | '/' :: '/' :: tail => some (String.mk (tail.dropWhile (fun ch => ch ≠ '/')))
        | _ => some (String.mk rest)
      else none

/-- `url.pathname.replace(/^\//, '')`: drop one leading slash. -/
def stripLeadingSlash (p : String) : String :=
  match p.data with
  | '/' :: rest => String.mk rest
  | _ => p

/-! ### Shared request/response shapes of the two MCP handlers -/

/-- One entry of the `resources` array returned by the list handler. -/
structure Resource where
  uri : String
  mimeType : String
  name : String
  description : String
deriving DecidableEq

/-- Outcome of the read handler: the `TypeError` thrown by `new URL`,
the thrown `Error('Rule ... not found')`, or the returned contents. -/
inductive ReadOutcome where
  | urlTypeError : ReadOutcome
  | notFoundError (filename : String) : ReadOutcome
  | contents (uri : String) (mimeType : String) (text : String) : ReadOutcome
deriving DecidableEq

/-! ### Remote Repository variant (`src/index.ts`) -/

namespace Remote

/-- The `Rule` record of `src/index.ts`. -/
structure Rule where
  filename : String
  title : String
  content : String
  sha : String
deriving DecidableEq

/-- One element of the parsed GitHub contents-API listing. -/
structure GhFile where
  name : String
  sha : String
  download_url : String
  type : String
deriving DecidableEq

/-- Outcome of the per-document `fetch(file.download_url)`. -/
inductive BodyResponse where
  | ok (content : String) : BodyResponse
  | httpError (status : Nat) : BodyResponse
  | netError : BodyResponse
deriving DecidableEq

/-- Outcome of the listing request `fetch(apiUrl)`: the fetch throws, or
an HTTP response with a status, an optional `etag` header, and (for
successful statuses) the parsed JSON body. -/
inductive ListingResponse where
  | netError : ListingResponse
  | http (status : Nat) (etag : Option String) (files : List GhFile) : ListingResponse

/-- The external world one refresh cycle runs against: the listing
response and the per-`download_url` body responses. -/
structure World where
  listing : ListingResponse
  body : String → BodyResponse

/-- The module-level mutable state of `src/index.ts`. -/
structure St where
  cachedRules : List (String × Rule)
  lastEtag : Option String
deriving DecidableEq

/-- The `.md`-file filter applied to the parsed listing. -/
def mdFilter (files : List GhFile) : List GhFile :=
  files.filter (fun file => file.type = "file" && jsEndsWith file.name ".md")

/-- The per-file download loop of `fetchRulesFromGitHub`: a failed or
throwing body fetch is logged and skipped, a successful one is assigned
into the accumulator object. -/
def buildRules (body : String → BodyResponse) :
    List GhFile → List (String × Rule) → List (String × Rule)
  | [], rules => rules
  | f :: fs, rules =>
    match body f.download_url with
    | .ok content =>
        buildRules body fs (setEntry rules f.name
          { filename := f.name, title := extractTitle content f.name,
            content := content, sha := f.sha })
    | _ => buildRules body fs rules

/-- Result of one call to `fetchRulesFromGitHub`: the returned object,
the value of `lastEtag` after the call, and how many HTTP requests the
call issued (the listing request, and one body request per `.md` file
reached). -/
structure FetchResult where
  rules : List (String × Rule)
  lastEtag : Option String
  listingFetches : Nat
  bodyFetches : Nat
deriving DecidableEq

/-- `fetchRulesFromGitHub()` from `src/index.ts`.  A 304 returns the
cache; a non-ok status or a throwing fetch lands in the outer catch,
which returns the cache when it is non-empty and the (empty) fresh
accumulator otherwise; a 2xx response stores the `etag` header (when
present) before the download loop runs. -/
def fetchRulesFromGitHub (w : World) (st : St) : FetchResult :=
  match w.listing with
  | .netError =>
      { rules := if st.cachedRules.isEmpty then [] else st.cachedRules,
        lastEtag := st.lastEtag, listingFetches := 1, bodyFetches := 0 }
  | .http status etag files =>
      if status = 304 then
        { rules := st.cachedRules, lastEtag := st.lastEtag,
          listingFetches := 1, bodyFetches := 0 }
      else if status < 200 ∨ 299 < status then
        { rules := if st.cachedRules.isEmpty then [] else st.cachedRules,
          lastEtag := st.lastEtag, listingFetches := 1, bodyFetches := 0 }
      else
        { rules := buildRules w.body (mdFilter files) [],
          lastEtag := match etag with | some e => some e | none => st.lastEtag,
          listingFetches := 1, bodyFetches := (mdFilter files).length }

/-- `getRules()`: run a fetch cycle, assign `cachedRules`, return it. -/
def getRules (w : World) (st : St) : List (String × Rule) × St :=
  let r := fetchRulesFromGitHub w st
  (r.rules, { cachedRules := r.rules, lastEtag := r.lastEtag })

/-- One fire of the `setInterval` callback in `setupGitHubPolling`: run a
fetch cycle (the change diff it computes is logging only) and assign
`cachedRules`. -/
def pollTick (w : World) (st : St) : St :=
  let r := fetchRulesFromGitHub w st
  { cachedRules := r.rules, lastEtag := r.lastEtag }

/-- The resource entry built for one rule by the list handler. -/
def ruleToResource (filename : String) (rule : Rule) : Resource :=
  { uri := "rule:///" ++ filename, mimeType := "text/markdown",
    name := rule.title,
    description := "Roo rule: " ++ rule.title ++ " (" ++ filename ++ ")" }

/-- The `ListResourcesRequestSchema` handler of `src/index.ts`. -/
def listResources (w : World) (st : St) : List Resource × St :=
  let (rules, st') := getRules w st
  (rules.map (fun p => ruleToResource p.1 p.2), st')

/-- The `ReadResourceRequestSchema` handler of `src/index.ts`.  `new URL`
runs before `getRules`, so a parse failure leaves the state untouched;
the not-found throw happens after `getRules` has already reassigned
`cachedRules`. -/
def readResource (w : World) (uri : String) (st : St) : ReadOutcome × St :=
  match urlPathname uri with
  | none => (.urlTypeError, st)
  | some pathname =>
    let filename := stripLeadingSlash pathname
    let (rules, st') := getRules w st
    match lookupEntry rules filename with
    | none => (.notFoundError filename, st')
    | some rule => (.contents uri "text/markdown" rule.content, st')

/-! #### Event-loop model of `setupGitHubPolling`

The `setInterval` callback invokes `fetchRulesFromGitHub` immediately
and unconditionally — there is no in-flight flag or queue in
`src/index.ts` — so a timer fire is enabled in every state, including
while a previous cycle is still awaiting its fetches. -/

/-- Number of refresh cycles started and not yet completed. -/
structure SchedState where
  inFlight : Nat
deriving DecidableEq

/-- Interleaving steps of the polling scheduler of `src/index.ts`. -/
inductive SchedStep : SchedState → SchedState → Prop
  | timerFire (s : SchedState) : SchedStep s ⟨s.inFlight + 1⟩
  | cycleDone (s : SchedState) (h : 0 < s.inFlight) : SchedStep s ⟨s.inFlight - 1⟩

end Remote

/-! ### Local Directory variant (the second source file) -/

namespace Loc

/-- The `Rule` record of the Local Directory source file (no `sha`). -/
structure Rule where
  filename : String
  title : String
  content : String
deriving DecidableEq

/-- Outcome of `fs.readFileSync` for one file. -/
inductive FileRead where
  | ok (content : String) : FileRead
  | err : FileRead
deriving DecidableEq

/-- The rules directory as the filesystem presents it: whether it
exists, the `readdirSync` listing, and each file's read outcome. -/
structure Dir where
  present : Bool
  files : List String
  content : String → FileRead

/-- The per-file loop of `loadRules`: the inlined title extraction is
the same scan as `extractTitle`; a throwing read is logged and the file
skipped. -/
def buildLocal (content : String → FileRead) :
    List String → List (String × Rule) → List (String × Rule)
  | [], rules => rules
  | f :: fs, rules =>
    match content f with
    | .ok c =>
        buildLocal content fs (setEntry rules f
          { filename := f, title := extractTitle c f, content := c })
    | .err => buildLocal content fs rules

/-- `loadRules()`: a missing directory yields the empty object;
otherwise read every `.md` entry of the listing. -/
def loadRules (d : Dir) : List (String × Rule) :=
  if d.present then
    buildLocal d.content (d.files.filter (fun file => jsEndsWith file ".md")) []
  else []

/-- `getRules()` of the Local variant: always a fresh `loadRules()`. -/
def getRules (d : Dir) : List (String × Rule) :=
  loadRules d

/-- The resource entry built for one rule by the list handler. -/
def ruleToResource (filename : String) (rule : Rule) : Resource :=
  { uri := "rule:///" ++ filename, mimeType := "text/markdown",
    name := rule.title,
    description := "Roo rule: " ++ rule.title ++ " (" ++ filename ++ ")" }

/-- The `ListResourcesRequestSchema` handler of the Local variant. -/
def listResources (d : Dir) : List Resource :=
  (getRules d).map (fun p => ruleToResource p.1 p.2)

/-- The `ReadResourceRequestSchema` handler of the Local variant. -/
def readResource (d : Dir) (uri : String) : ReadOutcome :=
  match urlPathname uri with
  | none => .urlTypeError
  | some pathname =>
    let filename := stripLeadingSlash pathname
    match lookupEntry (getRules d) filename with
    | none => .notFoundError filename
    | some rule => .contents uri "text/markdown" rule.content

end Loc

/-! ### Helper lemmas: JavaScript object maps -/

theorem lookupEntry_cons {α : Type} (k : String) (v : α) (rest : List (String × α))
    (n : String) :
    lookupEntry ((k, v) :: rest) n = if k = n then some v else lookupEntry rest n := rfl

theorem setEntry_cons_ne {α : Type} (p : String × α) (rest : List (String × α))
    (k : String) (v : α) (h : ¬ p.1 = k) :
    setEntry (p :: rest) k v = p :: setEntry rest k v := by
  by_cases hr : (rest.any fun q => q.1 = k) = true <;>
    simp [setEntry, h, hr]

theorem lookupEntry_map_set_ne {α : Type} (rest : List (String × α)) (k n : String)
    (v : α) (h : ¬ k = n) :
    lookupEntry (rest.map (fun p => if p.1 = k then (k, v) else p)) n =
      lookupEntry rest n := by
  induction rest with
  | nil => rfl
  | cons p rest ih =>
    obtain ⟨k', v'⟩ := p
    simp only [List.map_cons]
    by_cases hk : k' = k
    · have hk'n : ¬ k' = n := fun e => h (hk.symm.trans e)
      rw [if_pos (show (k', v').1 = k from hk), lookupEntry_cons, lookupEntry_cons,
        if_neg h, if_neg hk'n, ih]
    · rw [if_neg (show ¬ (k', v').1 = k from hk), lookupEntry_cons, lookupEntry_cons]
      by_cases hn : k' = n
      · rw [if_pos hn, if_pos hn]
      · rw [if_neg hn, if_neg hn, ih]

theorem lookupEntry_map_set_self {α : Type} (rest : List (String × α)) (k : String)
    (v : α) (h : (rest.any fun q => q.1 = k) = true) :
    lookupEntry (rest.map (fun p => if p.1 = k then (k, v) else p)) k = some v := by
  induction rest with
  | nil => simp at h
  | cons p rest ih =>
    obtain ⟨k', v'⟩ := p
    simp only [List.map_cons]
    by_cases hk : k' = k
    · rw [if_pos (show (k', v').1 = k from hk), lookupEntry_cons, if_pos rfl]
    · rw [if_neg (show ¬ (k', v').1 = k from hk), lookupEntry_cons, if_neg hk]
      apply ih
      simp only [List.any_cons, Bool.or_eq_true, decide_eq_true_eq] at h
      rcases h with h' | h'
      · exact absurd h' hk
      · exact h'

theorem lookupEntry_append_single {α : Type} (rs : List (String × α)) (k n : String)
    (v : α) (h : ∀ p ∈ rs, ¬ p.1 = k) :
    lookupEntry (rs ++ [(k, v)]) n = if k = n then some v else lookupEntry rs n := by
  induction rs with
  | nil =>
    show (if k = n then some v else lookupEntry [] n) = _
    rfl
  | cons p rest ih =>
    obtain ⟨k', v'⟩ := p
    rw [List.cons_append, lookupEntry_cons, lookupEntry_cons]
    by_cases hn : k' = n
    · have hkn : ¬ k = n := fun e => h (k', v') (by simp) (hn.trans e.symm)
      rw [if_pos hn, if_neg hkn, if_pos hn]
    · rw [if_neg hn, ih (fun q hq => h q (by simp [hq]))]
      by_cases hkn : k = n
      · rw [if_pos hkn, if_pos hkn]
      · rw [if_neg hkn, if_neg hkn, if_neg hn]

theorem lookupEntry_setEntry {α : Type} (rs : List (String × α)) (k n : String) (v : α) :
    lookupEntry (setEntry rs k v) n =
      if k = n then some v else lookupEntry rs n := by
  unfold setEntry
  by_cases hr : (rs.any fun p => p.1 = k) = true
  · rw [if_pos hr]
    by_cases hn : k = n
    · subst hn
      rw [if_pos rfl]
      exact lookupEntry_map_set_self rs k v hr
    · rw [if_neg hn]
      exact lookupEntry_map_set_ne rs k n v hn
  · rw [if_neg hr]
    apply lookupEntry_append_single
    intro p hp e
    exact hr (List.any_eq_true.mpr ⟨p, hp, by simp [e]⟩)

theorem mem_setEntry {α : Type} (rs : List (String × α)) (k : String) (v : α)
    (x : String × α) (h : x ∈ setEntry rs k v) : x = (k, v) ∨ x ∈ rs := by
  unfold setEntry at h
  split at h
  · obtain ⟨p, hp, he⟩ := List.mem_map.mp h
    by_cases hpk : p.1 = k
    · rw [if_pos hpk] at he
      exact Or.inl he.symm
    · rw [if_neg hpk] at he
      exact Or.inr (he ▸ hp)
  · rcases List.mem_append.mp h with h' | h'
    · exact Or.inr h'
    · simp at h'
      exact Or.inl h'

/-! ### Helper lemmas: the title scan -/

theorem findSome?_first {α β : Type} (f : α → Option β) (pre : List α) (x : α)
    (post : List α) (hpre : ∀ l ∈ pre, f l = none) (b : β) (hx : f x = some b) :
    (pre ++ x :: post).findSome? f = some b := by
  induction pre with
  | nil => simp [List.findSome?_cons, hx]
  | cons a pre ih =>
    have ha : f a = none := hpre a (by simp)
    simp only [List.cons_append, List.findSome?_cons, ha]
    exact ih fun l hl => hpre l (by simp [hl])

theorem findSome?_none {α β : Type} (f : α → Option β) (l : List α)
    (h : ∀ x ∈ l, f x = none) : l.findSome? f = none := by
  induction l with
  | nil => rfl
  | cons a l ih =>
    have ha : f a = none := h a (by simp)
    simp only [List.findSome?_cons, ha]
    exact ih fun x hx => h x (by simp [hx])

theorem matchRest_suffix (l g : List Char) (h : matchRest l = some g) : g <:+ l := by
  induction l with
  | nil => simp [matchRest] at h
  | cons c rest ih =>
    unfold matchRest at h
    by_cases hw : jsWs c = true
    · rw [if_pos hw] at h
      cases hm : matchRest rest with
      | some g' =>
        rw [hm] at h
        injection h with h
        subst h
        exact (ih hm).trans (List.suffix_cons c rest)
      | none =>
        rw [hm] at h
        by_cases hd : ((c :: rest).all dotChar) = true
        · rw [if_pos hd] at h
          injection h with h
          exact h ▸ List.suffix_refl _
        · rw [if_neg hd] at h
          cases h
    · rw [if_neg hw] at h
      by_cases hd : ((c :: rest).all dotChar) = true
      · rw [if_pos hd] at h
        injection h with h
        exact h ▸ List.suffix_refl _
      · rw [if_neg hd] at h
        cases h

theorem jsTrimL_eq_nil (l : List Char) (h : ∀ c ∈ l, jsWs c = true) : jsTrimL l = [] := by
  have h1 : l.dropWhile jsWs = [] := List.dropWhile_eq_nil_iff.mpr h
  simp [jsTrimL, h1]

theorem jsTrimL_cons_ws (c : Char) (l : List Char) (h : jsWs c = true) :
    jsTrimL (c :: l) = jsTrimL l := by
  simp [jsTrimL, List.dropWhile_cons, h]

theorem matchRest_trim (l g : List Char) (h : matchRest l = some g) :
    jsTrimL g = jsTrimL l := by
  induction l with
  | nil => simp [matchRest] at h
  | cons c rest ih =>
    unfold matchRest at h
    by_cases hw : jsWs c = true
    · rw [if_pos hw] at h
      cases hm : matchRest rest with
      | some g' =>
        rw [hm] at h
        injection h with h
        subst h
        rw [ih hm, jsTrimL_cons_ws c rest hw]
      | none =>
        rw [hm] at h
        by_cases hd : ((c :: rest).all dotChar) = true
        · rw [if_pos hd] at h
          injection h with h
          rw [← h]
        · rw [if_neg hd] at h
          cases h
    · rw [if_neg hw] at h
      by_cases hd : ((c :: rest).all dotChar) = true
      · rw [if_pos hd] at h
        injection h with h
        rw [← h]
      · rw [if_neg hd] at h
        cases h

theorem h1Capture_elim (l g : List Char) (h : h1Capture l = some g) :
    ∃ c t, l = '#' :: c :: t ∧ jsWs c = true ∧ matchRest t = some g := by
  cases l with
  | nil => simp [h1Capture] at h
  | cons a l' =>
    cases l' with
    | nil => simp [h1Capture] at h
    | cons c t =>
      rw [show h1Capture (a :: c :: t) =
        if a = '#' ∧ jsWs c = true then matchRest t else none from rfl] at h
      by_cases hc : a = '#' ∧ jsWs c = true
      · rw [if_pos hc] at h
        exact ⟨c, t, by rw [hc.1], hc.2, h⟩
      · rw [if_neg hc] at h
        cases h

theorem h1Capture_trim (l g : List Char) (h : h1Capture l = some g) :
    jsTrimL g = jsTrimL (l.drop 1) := by
  obtain ⟨c, t, rfl, hw, hm⟩ := h1Capture_elim l g h
  rw [matchRest_trim t g hm]
  exact (jsTrimL_cons_ws c t hw).symm

theorem extractTitle_of_first_match (content filename : String)
    (pre : List (List Char)) (line : List Char) (post : List (List Char))
    (hsplit : splitOnNl content.data = pre ++ line :: post)
    (hpre : ∀ l ∈ pre, h1Capture l = none)
    (g : List Char) (hline : h1Capture line = some g) :
    extractTitle content filename = String.mk (jsTrimL g) := by
  unfold extractTitle
  rw [hsplit, findSome?_first _ pre line post
    (fun l hl => by rw [hpre l hl]; rfl) (String.mk (jsTrimL g))
    (by rw [hline]; rfl)]

theorem extractTitle_of_no_match (content filename : String)
    (h : ∀ l ∈ splitOnNl content.data, h1Capture l = none) :
    extractTitle content filename = String.mk (removeFirstMd filename.data) := by
  unfold extractTitle
  rw [findSome?_none _ _ (fun l hl => by rw [h l hl]; rfl)]

/-! ### Helper lemmas: the two snapshot builders -/

theorem buildRules_lookup_of_not_mem (body : String → Remote.BodyResponse)
    (fs : List Remote.GhFile) (acc : List (String × Remote.Rule)) (n : String)
    (h : ∀ f ∈ fs, ¬ f.name = n) :
    lookupEntry (Remote.buildRules body fs acc) n = lookupEntry acc n := by
  induction fs generalizing acc with
  | nil => rfl
  | cons f fs ih =>
    have hf : ¬ f.name = n := h f (by simp)
    cases hb : body f.download_url with
    | ok c =>
      simp only [Remote.buildRules, hb]
      rw [ih _ fun g hg => h g (by simp [hg]), lookupEntry_setEntry, if_neg hf]
    | httpError s =>
      simp only [Remote.buildRules, hb]
      exact ih _ fun g hg => h g (by simp [hg])
    | netError =>
      simp only [Remote.buildRules, hb]
      exact ih _ fun g hg => h g (by simp [hg])

theorem buildRules_lookup_ok (body : String → Remote.BodyResponse)
    (fs : List Remote.GhFile) (acc : List (String × Remote.Rule))
    (f : Remote.GhFile) (c : String)
    (hnd : (fs.map Remote.GhFile.name).Nodup) (hf : f ∈ fs)
    (hc : body f.download_url = .ok c) :
    lookupEntry (Remote.buildRules body fs acc) f.name =
      some { filename := f.name, title := extractTitle c f.name,
             content := c, sha := f.sha } := by
  induction fs generalizing acc with
  | nil => cases hf
  | cons g fs ih =>
    rw [List.map_cons, List.nodup_cons] at hnd
    rcases List.mem_cons.mp hf with rfl | hf'
    · simp only [Remote.buildRules, hc]
      rw [buildRules_lookup_of_not_mem _ _ _ _
          (fun x hx hxn => hnd.1 (by rw [← hxn]; exact List.mem_map_of_mem Remote.GhFile.name hx)),
        lookupEntry_setEntry, if_pos rfl]
    · cases hb : body g.download_url with
      | ok c' =>
        simp only [Remote.buildRules, hb]
        exact ih _ hnd.2 hf'
      | httpError s =>
        simp only [Remote.buildRules, hb]
        exact ih _ hnd.2 hf'
      | netError =>
        simp only [Remote.buildRules, hb]
        exact ih _ hnd.2 hf'

theorem buildRules_lookup_failed (body : String → Remote.BodyResponse)
    (fs : List Remote.GhFile) (acc : List (String × Remote.Rule))
    (f : Remote.GhFile)
    (hnd : (fs.map Remote.GhFile.name).Nodup) (hf : f ∈ fs)
    (hc : ∀ c, ¬ body f.download_url = .ok c)
    (h0 : lookupEntry acc f.name = none) :
    lookupEntry (Remote.buildRules body fs acc) f.name = none := by
  induction fs generalizing acc with
  | nil => exact h0
  | cons g fs ih =>
    rw [List.map_cons, List.nodup_cons] at hnd
    rcases List.mem_cons.mp hf with rfl | hf'
    · cases hb : body f.download_url with
      | ok c => exact absurd hb (hc c)
      | httpError s =>
        simp only [Remote.buildRules, hb]
        rw [buildRules_lookup_of_not_mem _ _ _ _
            (fun x hx hxn => hnd.1 (by rw [← hxn]; exact List.mem_map_of_mem Remote.GhFile.name hx)),
          h0]
      | netError =>
        simp only [Remote.buildRules, hb]
        rw [buildRules_lookup_of_not_mem _ _ _ _
            (fun x hx hxn => hnd.1 (by rw [← hxn]; exact List.mem_map_of_mem Remote.GhFile.name hx)),
          h0]
    · have hgf : ¬ g.name = f.name := fun e =>
        hnd.1 (by rw [e]; exact List.mem_map_of_mem Remote.GhFile.name hf')
      cases hb : body g.download_url with
      | ok c' =>
        simp only [Remote.buildRules, hb]
        exact ih _ hnd.2 hf' (by rw [lookupEntry_setEntry, if_neg hgf, h0])
      | httpError s =>
        simp only [Remote.buildRules, hb]
        exact ih _ hnd.2 hf' h0
      | netError =>
        simp only [Remote.buildRules, hb]
        exact ih _ hnd.2 hf' h0

theorem buildLocal_lookup_of_not_mem (content : String → Loc.FileRead)
    (fs : List String) (acc : List (String × Loc.Rule)) (n : String)
    (h : n ∉ fs) :
    lookupEntry (Loc.buildLocal content fs acc) n = lookupEntry acc n := by
  induction fs generalizing acc with
  | nil => rfl
  | cons f fs ih =>
    have hf : ¬ f = n := fun e => h (by rw [e]; exact List.mem_cons_self n fs)
    have h' : n ∉ fs := fun hg => h (List.mem_cons_of_mem f hg)
    cases hb : content f with
    | ok c =>
      simp only [Loc.buildLocal, hb]
      rw [ih _ h', lookupEntry_setEntry, if_neg hf]
    | err =>
      simp only [Loc.buildLocal, hb]
      exact ih _ h'

theorem buildLocal_lookup_ok (content : String → Loc.FileRead)
    (fs : List String) (acc : List (String × Loc.Rule)) (f c : String)
    (hnd : fs.Nodup) (hf : f ∈ fs) (hc : content f = .ok c) :
    lookupEntry (Loc.buildLocal content fs acc) f =
      some { filename := f, title := extractTitle c f, content := c } := by
  induction fs generalizing acc with
  | nil => cases hf
  | cons g fs ih =>
    rw [List.nodup_cons] at hnd
    rcases List.mem_cons.mp hf with rfl | hf'
    · simp only [Loc.buildLocal, hc]
      rw [buildLocal_lookup_of_not_mem _ _ _ _ hnd.1, lookupEntry_setEntry, if_pos rfl]
    · cases hb : content g with
      | ok c' =>
        simp only [Loc.buildLocal, hb]
        exact ih _ hnd.2 hf'
      | err =>
        simp only [Loc.buildLocal, hb]
        exact ih _ hnd.2 hf'

theorem buildLocal_lookup_err (content : String → Loc.FileRead)
    (fs : List String) (acc : List (String × Loc.Rule)) (f : String)
    (hnd : fs.Nodup) (hf : f ∈ fs) (hc : content f = .err)
    (h0 : lookupEntry acc f = none) :
    lookupEntry (Loc.buildLocal content fs acc) f = none := by
  induction fs generalizing acc with
  | nil => exact h0
  | cons g fs ih =>
    rw [List.nodup_cons] at hnd
    rcases List.mem_cons.mp hf with rfl | hf'
    · simp only [Loc.buildLocal, hc]
      rw [buildLocal_lookup_of_not_mem _ _ _ _ hnd.1, h0]
    · have hgf : ¬ g = f := fun e => hnd.1 (e ▸ hf')
      cases hb : content g with
      | ok c' =>
        simp only [Loc.buildLocal, hb]
        exact ih _ hnd.2 hf' (by rw [lookupEntry_setEntry, if_neg hgf, h0])
      | err =>
        simp only [Loc.buildLocal, hb]
        exact ih _ hnd.2 hf' h0

theorem mem_buildLocal (content : String → Loc.FileRead) (fs : List String)
    (acc : List (String × Loc.Rule)) (x : String × Loc.Rule)
    (h : x ∈ Loc.buildLocal content fs acc) : x.1 ∈ fs ∨ x ∈ acc := by
  induction fs generalizing acc with
  | nil => exact Or.inr h
  | cons f fs ih =>
    cases hb : content f with
    | ok c =>
      simp only [Loc.buildLocal, hb] at h
      rcases ih _ h with h' | h'
      · exact Or.inl (List.mem_cons_of_mem f h')
      · rcases mem_setEntry _ _ _ _ h' with h'' | h''
        · rw [h'']
          exact Or.inl (List.mem_cons_self f fs)
        · exact Or.inr h''
    | err =>
      simp only [Loc.buildLocal, hb] at h
      rcases ih _ h with h' | h'
      · exact Or.inl (List.mem_cons_of_mem f h')
      · exact Or.inr h'

theorem string_append_cancel (p a b : String) (h : p ++ a = p ++ b) : a = b := by
  cases p with | mk dp =>
  cases a with | mk da =>
  cases b with | mk db =>
  have h' : dp ++ da = dp ++ db := congrArg String.data h
  exact congrArg String.mk (List.append_cancel_left h')

/-! ### Helper lemmas: the remote refresh cycle -/

theorem ite_isEmpty_self {α : Type} (l : List α) :
    (if l.isEmpty then ([] : List α) else l) = l := by
  cases l <;> simp

theorem fetch_http304 (w : Remote.World) (st : Remote.St) (e : Option String)
    (fs : List Remote.GhFile) (h : w.listing = Remote.ListingResponse.http 304 e fs) :
    Remote.fetchRulesFromGitHub w st =
      { rules := st.cachedRules, lastEtag := st.lastEtag,
        listingFetches := 1, bodyFetches := 0 } := by
  simp [Remote.fetchRulesFromGitHub, h]

theorem fetch_catch (w : Remote.World) (st : Remote.St)
    (h : w.listing = Remote.ListingResponse.netError ∨
      ∃ s e fs, w.listing = Remote.ListingResponse.http s e fs ∧
        ¬ s = 304 ∧ (s < 200 ∨ 299 < s)) :
    Remote.fetchRulesFromGitHub w st =
      { rules := if st.cachedRules.isEmpty then [] else st.cachedRules,
        lastEtag := st.lastEtag, listingFetches := 1, bodyFetches := 0 } := by
  rcases h with h | ⟨s, e, fs, h, h304, hbad⟩
  · simp [Remote.fetchRulesFromGitHub, h]
  · simp only [Remote.fetchRulesFromGitHub, h, if_neg h304, if_pos hbad]

theorem fetch_http_ok (w : Remote.World) (st : Remote.St) (s : Nat)
    (e : Option String) (files : List Remote.GhFile)
    (hl : w.listing = Remote.ListingResponse.http s e files)
    (h2 : 200 ≤ s) (h3 : s ≤ 299) :
    Remote.fetchRulesFromGitHub w st =
      { rules := Remote.buildRules w.body (Remote.mdFilter files) [],
        lastEtag := match e with | some e' => some e' | none => st.lastEtag,
        listingFetches := 1,
        bodyFetches := (Remote.mdFilter files).length } := by
  have h304 : ¬ s = 304 := by omega
  have hok : ¬ (s < 200 ∨ 299 < s) := by omega
  simp only [Remote.fetchRulesFromGitHub, hl, if_neg h304, if_neg hok]
  cases e <;> rfl

theorem fetch_listingFetches (w : Remote.World) (st : Remote.St) :
    (Remote.fetchRulesFromGitHub w st).listingFetches = 1 := by
  cases hl : w.listing with
  | netError => simp [Remote.fetchRulesFromGitHub, hl]
  | http s e fs =>
    simp only [Remote.fetchRulesFromGitHub, hl]
    split
    · rfl
    · split <;> rfl

/-! ### Claim theorems -/

/-- C3: for every refresh cycle of the Remote Repository variant in which
the directory-listing request fails entirely (network error, or any
status other than 304 or 2xx), the snapshot after the cycle has exactly
the same entries as the snapshot before it, for every prior cache state
including the empty one. -/
theorem C3_listing_failure_keeps_snapshot (w : Remote.World) (st : Remote.St)
    (h : w.listing = Remote.ListingResponse.netError ∨
      ∃ s e fs, w.listing = Remote.ListingResponse.http s e fs ∧
        ¬ s = 304 ∧ (s < 200 ∨ 299 < s)) :
    (Remote.fetchRulesFromGitHub w st).rules = st.cachedRules ∧
    (Remote.pollTick w st).cachedRules = st.cachedRules := by
  have key : (Remote.fetchRulesFromGitHub w st).rules = st.cachedRules := by
    rw [fetch_catch w st h]
    exact ite_isEmpty_self st.cachedRules
  exact ⟨key, key⟩

/-- C3 witness: a network error with an empty cache and a 500 status with
a non-empty cache both leave the snapshot entries unchanged. -/
theorem C3_witness :
    let wNet : Remote.World := ⟨Remote.ListingResponse.netError, fun _ => Remote.BodyResponse.netError⟩
    let stEmpty : Remote.St := ⟨[], none⟩
    let w500 : Remote.World := ⟨Remote.ListingResponse.http 500 none [], fun _ => Remote.BodyResponse.netError⟩
    let ra : Remote.Rule := ⟨"a.md", "A", "alpha", "s1"⟩
    let stA : Remote.St := ⟨[("a.md", ra)], some "E"⟩
    ((Remote.fetchRulesFromGitHub wNet stEmpty).rules = stEmpty.cachedRules ∧
      (Remote.pollTick wNet stEmpty).cachedRules = stEmpty.cachedRules) ∧
    ((Remote.fetchRulesFromGitHub w500 stA).rules = stA.cachedRules ∧
      (Remote.pollTick w500 stA).cachedRules = stA.cachedRules) := by
  exact ⟨C3_listing_failure_keeps_snapshot _ _ (Or.inl rfl),
    C3_listing_failure_keeps_snapshot _ _
      (Or.inr ⟨500, none, [], rfl, by decide, by decide⟩)⟩

/-- C5: for every refresh cycle of the Remote Repository variant in which
the listing request returns HTTP 304, the cycle returns the prior
snapshot's entries unchanged, leaves the stored ETag validator token
unchanged, and performs zero per-document fetch calls. -/
theorem C5_not_modified (w : Remote.World) (st : Remote.St) (e : Option String)
    (fs : List Remote.GhFile)
    (h : w.listing = Remote.ListingResponse.http 304 e fs) :
    (Remote.fetchRulesFromGitHub w st).rules = st.cachedRules ∧
    (Remote.fetchRulesFromGitHub w st).lastEtag = st.lastEtag ∧
    (Remote.fetchRulesFromGitHub w st).bodyFetches = 0 ∧
    Remote.pollTick w st = st := by
  rw [fetch_http304 w st e fs h]
  refine ⟨rfl, rfl, rfl, ?_⟩
  show Remote.pollTick w st = st
  unfold Remote.pollTick
  rw [fetch_http304 w st e fs h]

/-- C5 witness: a 304 response against a one-entry cache. -/
theorem C5_witness :
    let ra : Remote.Rule := ⟨"a.md", "A", "alpha", "s1"⟩
    let st : Remote.St := ⟨[("a.md", ra)], some "E"⟩
    let w : Remote.World := ⟨Remote.ListingResponse.http 304 none [], fun _ => Remote.BodyResponse.netError⟩
    (Remote.fetchRulesFromGitHub w st).rules = st.cachedRules ∧
    (Remote.fetchRulesFromGitHub w st).lastEtag = st.lastEtag ∧
    (Remote.fetchRulesFromGitHub w st).bodyFetches = 0 ∧
    Remote.pollTick w st = st := by
  exact C5_not_modified _ _ none [] rfl

/-- C9: in the Remote Repository variant, a successful non-304 listing
carrying an ETag updates the stored validator before (independently of)
the per-document fetches; per-document failures never roll the token
back, and a later 304 cycle keeps returning the snapshot built by the
partially failed cycle. -/
theorem C9_etag_survives_body_failures (w : Remote.World) (st : Remote.St)
    (s : Nat) (e : String) (files : List Remote.GhFile)
    (hl : w.listing = Remote.ListingResponse.http s (some e) files)
    (h2 : 200 ≤ s) (h3 : s ≤ 299) :
    (Remote.fetchRulesFromGitHub w st).lastEtag = some e ∧
    (∀ body', (Remote.fetchRulesFromGitHub ⟨w.listing, body'⟩ st).lastEtag = some e) ∧
    (∀ (w2 : Remote.World) (e2 : Option String) (fs2 : List Remote.GhFile),
      w2.listing = Remote.ListingResponse.http 304 e2 fs2 →
      Remote.pollTick w2 (Remote.pollTick w st) = Remote.pollTick w st ∧
      (Remote.fetchRulesFromGitHub w2 (Remote.pollTick w st)).rules =
        (Remote.pollTick w st).cachedRules ∧
      (Remote.fetchRulesFromGitHub w2 (Remote.pollTick w st)).lastEtag = some e) := by
  refine ⟨by rw [fetch_http_ok w st s (some e) files hl h2 h3], ?_, ?_⟩
  · intro body'
    rw [fetch_http_ok ⟨w.listing, body'⟩ st s (some e) files hl h2 h3]
  · intro w2 e2 fs2 h2l
    have hst' : (Remote.pollTick w st).lastEtag = some e := by
      unfold Remote.pollTick
      rw [fetch_http_ok w st s (some e) files hl h2 h3]
    refine ⟨?_, ?_, ?_⟩
    · show Remote.pollTick w2 (Remote.pollTick w st) = Remote.pollTick w st
      unfold Remote.pollTick
      rw [fetch_http304 _ _ e2 fs2 h2l]
    · rw [fetch_http304 _ _ e2 fs2 h2l]
    · rw [fetch_http304 _ _ e2 fs2 h2l]
      exact hst'

/-- C9 witness: a 200 listing with ETag "W2" of two files, one of which
fails to download, stores "W2"; the following 304 cycle returns the
one-entry snapshot and keeps "W2". -/
theorem C9_witness :
    let fa : Remote.GhFile := ⟨"a.md", "sa", "ua", "file"⟩
    let fb : Remote.GhFile := ⟨"b.md", "sb", "ub", "file"⟩
    let w : Remote.World :=
      ⟨Remote.ListingResponse.http 200 (some "W2") [fa, fb],
        fun u => if u = "ua" then Remote.BodyResponse.ok "# A\nbody" else Remote.BodyResponse.httpError 404⟩
    let st : Remote.St := ⟨[], none⟩
    let w2 : Remote.World := ⟨Remote.ListingResponse.http 304 none [], fun _ => Remote.BodyResponse.netError⟩
    (Remote.fetchRulesFromGitHub w st).lastEtag = some "W2" ∧
    (Remote.pollTick w2 (Remote.pollTick w st) = Remote.pollTick w st ∧
      (Remote.fetchRulesFromGitHub w2 (Remote.pollTick w st)).rules =
        (Remote.pollTick w st).cachedRules ∧
      (Remote.fetchRulesFromGitHub w2 (Remote.pollTick w st)).lastEtag = some "W2") ∧
    (Remote.pollTick w st).cachedRules =
      [("a.md", ⟨"a.md", "A", "# A\nbody", "sa"⟩)] := by
  refine ⟨(C9_etag_survives_body_failures _ _ 200 "W2" _ rfl (by decide) (by decide)).1,
    (C9_etag_survives_body_failures _ _ 200 "W2" _ rfl (by decide) (by decide)).2.2
      _ none [] rfl, ?_⟩
  decide

/-- C4: in every refresh cycle (either variant) where the enumeration
succeeds but one document's body fetch fails, the published snapshot
contains every successfully fetched document and omits the failed name
(the old cached record is not carried forward), and the cycle completes
without an exception escaping. -/
theorem C4_per_document_failure (w : Remote.World) (st : Remote.St) (s : Nat)
    (e : Option String) (files : List Remote.GhFile)
    (hl : w.listing = Remote.ListingResponse.http s e files)
    (h2 : 200 ≤ s) (h3 : s ≤ 299)
    (hnd : ((Remote.mdFilter files).map Remote.GhFile.name).Nodup) :
    (∀ f ∈ Remote.mdFilter files, ∀ c, w.body f.download_url = Remote.BodyResponse.ok c →
      lookupEntry (Remote.pollTick w st).cachedRules f.name =
        some { filename := f.name, title := extractTitle c f.name,
               content := c, sha := f.sha }) ∧
    (∀ f ∈ Remote.mdFilter files, (∀ c, ¬ w.body f.download_url = Remote.BodyResponse.ok c) →
      lookupEntry (Remote.pollTick w st).cachedRules f.name = none) ∧
    (∀ (d : Loc.Dir), d.present = true →
      (d.files.filter (fun file => jsEndsWith file ".md")).Nodup →
      ∀ f ∈ d.files.filter (fun file => jsEndsWith file ".md"),
        (∀ c, d.content f = Loc.FileRead.ok c →
          lookupEntry (Loc.getRules d) f =
            some { filename := f, title := extractTitle c f, content := c }) ∧
        (d.content f = Loc.FileRead.err → lookupEntry (Loc.getRules d) f = none)) := by
  have hcr : (Remote.pollTick w st).cachedRules =
      Remote.buildRules w.body (Remote.mdFilter files) [] := by
    unfold Remote.pollTick
    rw [fetch_http_ok w st s e files hl h2 h3]
  refine ⟨?_, ?_, ?_⟩
  · intro f hf c hc
    rw [hcr]
    exact buildRules_lookup_ok w.body _ [] f c hnd hf hc
  · intro f hf hc
    rw [hcr]
    exact buildRules_lookup_failed w.body _ [] f hnd hf hc rfl
  · intro d hp hnd' f hf
    have hld : Loc.getRules d =
        Loc.buildLocal d.content (d.files.filter (fun file => jsEndsWith file ".md")) [] := by
      unfold Loc.getRules Loc.loadRules
      rw [hp]
      simp
    constructor
    · intro c hc
      rw [hld]
      exact buildLocal_lookup_ok d.content _ [] f c hnd' hf hc
    · intro hc
      rw [hld]
      exact buildLocal_lookup_err d.content _ [] f hnd' hf hc rfl

/-- C4 witness: remote cycle listing three files of which one download
fails yields a snapshot with exactly the two others; a local rebuild with
one unreadable file omits it. -/
theorem C4_witness :
    let fa : Remote.GhFile := ⟨"a.md", "sa", "ua", "file"⟩
    let fb : Remote.GhFile := ⟨"b.md", "sb", "ub", "file"⟩
    let fc : Remote.GhFile := ⟨"c.md", "sc", "uc", "file"⟩
    let w : Remote.World :=
      ⟨Remote.ListingResponse.http 200 (some "W") [fa, fb, fc],
        fun u => if u = "ub" then Remote.BodyResponse.httpError 500 else Remote.BodyResponse.ok "text"⟩
    let rb : Remote.Rule := ⟨"b.md", "old B", "old", "old-sha"⟩
    let st : Remote.St := ⟨[("b.md", rb)], none⟩
    let d : Loc.Dir := ⟨true, ["x.md", "y.md"],
      fun f => if f = "y.md" then Loc.FileRead.err else Loc.FileRead.ok "text"⟩
    lookupEntry (Remote.pollTick w st).cachedRules "a.md" =
      some { filename := "a.md", title := extractTitle "text" "a.md",
             content := "text", sha := "sa" } ∧
    lookupEntry (Remote.pollTick w st).cachedRules "b.md" = none ∧
    lookupEntry (Loc.getRules d) "x.md" =
      some { filename := "x.md", title := extractTitle "text" "x.md",
             content := "text" } ∧
    lookupEntry (Loc.getRules d) "y.md" = none := by
  intro fa fb fc w rb st d
  have h := C4_per_document_failure w st 200 (some "W") [fa, fb, fc] rfl
    (by decide) (by decide) (by decide)
  have hloc := h.2.2 d rfl (by decide)
  exact ⟨h.1 fa (by decide) "text" rfl,
    h.2.1 fb (by decide) (fun c hc => Remote.BodyResponse.noConfusion hc),
    (hloc "x.md" (by decide)).1 "text" rfl,
    (hloc "y.md" (by decide)).2 rfl⟩

/-- C1 counterexample: in the Remote variant a single `listResources`
call issues the listing HTTP request (and a per-document fetch), replaces
the cached mapping and updates the stored ETag — it is not a fetch-free
return of the last background refresh. -/
theorem C1_counterexample :
    let ra : Remote.Rule := ⟨"a.md", "A", "alpha", "s1"⟩
    let st : Remote.St := ⟨[("a.md", ra)], none⟩
    let w : Remote.World :=
      ⟨Remote.ListingResponse.http 200 (some "W") [⟨"b.md", "s2", "u2", "file"⟩],
        fun _ => Remote.BodyResponse.ok "# B\nbody"⟩
    (Remote.fetchRulesFromGitHub w st).listingFetches = 1 ∧
    (Remote.fetchRulesFromGitHub w st).bodyFetches = 1 ∧
    ¬ (Remote.listResources w st).2.cachedRules = st.cachedRules ∧
    ¬ (Remote.listResources w st).2.lastEtag = st.lastEtag := by
  exact ⟨by decide, by decide, by decide, by decide⟩

/-- C1 amended: in the Remote variant every list and read operation
itself runs a refresh cycle — it always issues the listing HTTP request
and leaves the cache and stored ETag exactly as that cycle leaves them;
they stay unchanged only when the listing answers 304 (or fails). -/
theorem C1_amended (w : Remote.World) (st : Remote.St) (uri : String)
    (hu : ¬ urlPathname uri = none) :
    (Remote.fetchRulesFromGitHub w st).listingFetches = 1 ∧
    (Remote.listResources w st).2 = Remote.pollTick w st ∧
    (Remote.readResource w uri st).2 = Remote.pollTick w st ∧
    (∀ e fs, w.listing = Remote.ListingResponse.http 304 e fs →
      (Remote.listResources w st).2 = st ∧
      (Remote.listResources w st).1 =
        st.cachedRules.map (fun p => Remote.ruleToResource p.1 p.2)) := by
  refine ⟨fetch_listingFetches w st, rfl, ?_, ?_⟩
  · cases hp : urlPathname uri with
    | none => exact absurd hp hu
    | some p =>
      simp only [Remote.readResource, hp]
      cases hl : lookupEntry (Remote.getRules w st).1 (stripLeadingSlash p) with
      | none => simp [hl, Remote.getRules, Remote.pollTick]
      | some r => simp [hl, Remote.getRules, Remote.pollTick]
  · intro e fs hl
    have h30 : Remote.fetchRulesFromGitHub w st =
        { rules := st.cachedRules, lastEtag := st.lastEtag,
          listingFetches := 1, bodyFetches := 0 } := fetch_http304 w st e fs hl
    constructor
    · show Remote.pollTick w st = st
      unfold Remote.pollTick
      rw [h30]
    · show (Remote.fetchRulesFromGitHub w st).rules.map _ = _
      rw [h30]

/-- C1 amended witness: with a 304 listing, a list call returns the
cached entries and leaves the state fixed; the listing request is still
issued. -/
theorem C1_amended_witness :
    let ra : Remote.Rule := ⟨"a.md", "A", "alpha", "s1"⟩
    let st : Remote.St := ⟨[("a.md", ra)], some "E"⟩
    let w : Remote.World :=
      ⟨Remote.ListingResponse.http 304 none [], fun _ => Remote.BodyResponse.netError⟩
    (Remote.fetchRulesFromGitHub w st).listingFetches = 1 ∧
    (Remote.listResources w st).2 = Remote.pollTick w st ∧
    (Remote.readResource w "rule:///a.md" st).2 = Remote.pollTick w st ∧
    ((Remote.listResources w st).2 = st ∧
      (Remote.listResources w st).1 =
        st.cachedRules.map (fun p => Remote.ruleToResource p.1 p.2)) := by
  intro ra st w
  have h := C1_amended w st "rule:///a.md" (by decide)
  exact ⟨h.1, h.2.1, h.2.2.1, h.2.2.2 none [] rfl⟩

/-- C2 counterexample: an unparseable identifier throws the URL
`TypeError`, which is distinguishable from the NotFound error thrown for
a parseable identifier absent from the snapshot; moreover a NotFound
read in the Remote variant can change the snapshot state (its `getRules`
refresh runs before the throw). -/
theorem C2_counterexample :
    let ra : Remote.Rule := ⟨"a.md", "A", "alpha", "s1"⟩
    let st : Remote.St := ⟨[("a.md", ra)], some "E"⟩
    let w304 : Remote.World :=
      ⟨Remote.ListingResponse.http 304 none [], fun _ => Remote.BodyResponse.netError⟩
    let wOk : Remote.World :=
      ⟨Remote.ListingResponse.http 200 (some "W") [], fun _ => Remote.BodyResponse.netError⟩
    (Remote.readResource w304 "not a url" st).1 = ReadOutcome.urlTypeError ∧
    (Remote.readResource w304 "rule:///ghost" st).1 = ReadOutcome.notFoundError "ghost" ∧
    ¬ (ReadOutcome.urlTypeError = ReadOutcome.notFoundError "ghost") ∧
    ¬ (Remote.readResource wOk "rule:///ghost" st).2 = st ∧
    (Loc.readResource ⟨true, [], fun _ => Loc.FileRead.err⟩ "not a url" = ReadOutcome.urlTypeError ∧
      Loc.readResource ⟨true, [], fun _ => Loc.FileRead.err⟩ "rule:///ghost" =
        ReadOutcome.notFoundError "ghost") := by
  exact ⟨by decide, by decide, by decide, by decide, by decide, by decide⟩

/-- C2 amended: a read whose identifier fails URL parsing throws the
parse `TypeError` before the rules are consulted and leaves the state
unchanged; a parseable identifier naming an absent document fails with
NotFound only after the handler's `getRules` refresh has run, with the
refreshed state — so the two failures are distinguishable and only the
second can change the snapshot. -/
theorem C2_amended (w : Remote.World) (st : Remote.St) (uri : String) :
    (urlPathname uri = none →
      Remote.readResource w uri st = (ReadOutcome.urlTypeError, st)) ∧
    (∀ p, urlPathname uri = some p →
      lookupEntry (Remote.getRules w st).1 (stripLeadingSlash p) = none →
      Remote.readResource w uri st =
        (ReadOutcome.notFoundError (stripLeadingSlash p), (Remote.getRules w st).2)) ∧
    (∀ (d : Loc.Dir),
      (urlPathname uri = none → Loc.readResource d uri = ReadOutcome.urlTypeError) ∧
      (∀ p, urlPathname uri = some p →
        lookupEntry (Loc.getRules d) (stripLeadingSlash p) = none →
        Loc.readResource d uri = ReadOutcome.notFoundError (stripLeadingSlash p))) := by
  refine ⟨?_, ?_, ?_⟩
  · intro hp
    simp [Remote.readResource, hp]
  · intro p hp hl
    simp [Remote.readResource, hp, hl]
  · intro d
    constructor
    · intro hp
      simp [Loc.readResource, hp]
    · intro p hp hl
      simp [Loc.readResource, hp, hl]

/-- C2 amended witness: the two failure shapes at concrete inputs. -/
theorem C2_amended_witness :
    let st : Remote.St := ⟨[], none⟩
    let w : Remote.World :=
      ⟨Remote.ListingResponse.http 304 none [], fun _ => Remote.BodyResponse.netError⟩
    Remote.readResource w "not a url" st = (ReadOutcome.urlTypeError, st) ∧
    Remote.readResource w "rule:///ghost" st =
      (ReadOutcome.notFoundError (stripLeadingSlash "/ghost"), (Remote.getRules w st).2) := by
  intro st w
  exact ⟨(C2_amended w st "not a url").1 (by decide),
    (C2_amended w st "rule:///ghost").2.1 "/ghost" (by decide) (by decide)⟩

/-- C6 counterexample: for a headingless document named `a.mdx.md`,
`extractTitle` removes the first interior occurrence of `.md` and yields
`ax.md`, not the extension-stripped `a.mdx` the claim states. -/
theorem C6_counterexample :
    extractTitle "body" "a.mdx.md" = "ax.md" ∧
    mdExtensionStripped "a.mdx.md" = "a.mdx" ∧
    ¬ extractTitle "body" "a.mdx.md" = mdExtensionStripped "a.mdx.md" := by
  exact ⟨by decide, by decide, by decide⟩

/-- C6 amended: `extractTitle` returns the trimmed text after the `#` of
the first line matching the level-1 heading pattern when one exists, and
otherwise returns the document name with the first occurrence of the
substring `.md` removed (which equals stripping the extension whenever
`.md` occurs only as the final extension); `"# Hello World\nbody"`
yields `"Hello World"` and headingless `"foo.md"` yields `"foo"`. -/
theorem C6_amended (content filename : String) :
    (∀ pre line post, splitOnNl content.data = pre ++ line :: post →
      (∀ l ∈ pre, h1Capture l = none) → ∀ g, h1Capture line = some g →
      extractTitle content filename = String.mk (jsTrimL (line.drop 1))) ∧
    ((∀ l ∈ splitOnNl content.data, h1Capture l = none) →
      extractTitle content filename = String.mk (removeFirstMd filename.data)) ∧
    extractTitle "# Hello World\nbody" "x.md" = "Hello World" ∧
    extractTitle "body" "foo.md" = "foo" := by
  refine ⟨?_, extractTitle_of_no_match content filename, by decide, by decide⟩
  intro pre line post hsplit hpre g hline
  rw [extractTitle_of_first_match content filename pre line post hsplit hpre g hline,
    h1Capture_trim line g hline]

/-- C6 amended witness: the heading case at a concrete split and the
fallback case at a concrete headingless document. -/
theorem C6_amended_witness :
    extractTitle "x\n# T\ny" "n.md" = String.mk (jsTrimL ("# T".data.drop 1)) ∧
    extractTitle "plain" "n.md" = String.mk (removeFirstMd "n.md".data) := by
  exact ⟨(C6_amended "x\n# T\ny" "n.md").1 ["x".data] "# T".data ["y".data]
      (by decide) (by decide) "T".data (by decide),
    (C6_amended "plain" "n.md").2.1 (by decide)⟩

/-- C10: a document whose first heading-pattern-matching line is `#`
followed only by whitespace gets the empty string as its title, not the
filename fallback; the fallback is used only when no line matches the
pattern. -/
theorem C10_whitespace_only_heading (content filename : String) :
    (∀ pre line post, splitOnNl content.data = pre ++ line :: post →
      (∀ l ∈ pre, h1Capture l = none) →
      (∀ c ∈ line.drop 1, jsWs c = true) →
      ∀ g, h1Capture line = some g →
      extractTitle content filename = "") ∧
    ((∀ l ∈ splitOnNl content.data, h1Capture l = none) →
      extractTitle content filename = String.mk (removeFirstMd filename.data)) := by
  refine ⟨?_, extractTitle_of_no_match content filename⟩
  intro pre line post hsplit hpre hws g hline
  rw [extractTitle_of_first_match content filename pre line post hsplit hpre g hline]
  obtain ⟨c, t, heq, hw, hm⟩ := h1Capture_elim line g hline
  have hsubt : g <:+ t := matchRest_suffix t g hm
  have hgws : ∀ x ∈ g, jsWs x = true := by
    intro x hx
    apply hws
    rw [heq]
    exact List.mem_cons_of_mem c (hsubt.subset hx)
  rw [jsTrimL_eq_nil g hgws]

/-- C10 witness: content `"#  \nbody"` (hash, two spaces) matches the
heading pattern and titles to the empty string, not `"foo"`. -/
theorem C10_witness :
    extractTitle "#  \nbody" "foo.md" = "" ∧
    ¬ ("" : String) = "foo" := by
  refine ⟨(C10_whitespace_only_heading "#  \nbody" "foo.md").1
    [] "#  ".data ["body".data] (by decide) (by decide) (by decide)
    " ".data (by decide), by decide⟩

/-- C7: in the Local Directory variant, read and refresh are the same
operation (`getRules` is a fresh `loadRules`), so after a file is
deleted from the directory the very next `listResources` call contains
no resource for it. -/
theorem C7_local_delete_visible (d : Loc.Dir) (f : String) :
    Loc.getRules d = Loc.loadRules d ∧
    ∀ r ∈ Loc.listResources
        { present := d.present, files := d.files.filter (fun g => ¬ g = f),
          content := d.content },
      ¬ r.uri = "rule:///" ++ f := by
  refine ⟨rfl, ?_⟩
  intro r hr he
  obtain ⟨p, hp, hpr⟩ := List.mem_map.mp hr
  have huri : r.uri = "rule:///" ++ p.1 := by rw [← hpr]; rfl
  have hk : p.1 = f := string_append_cancel _ _ _ (huri.symm.trans he)
  revert hp
  unfold Loc.getRules Loc.loadRules
  cases hpres : d.present with
  | false =>
    intro hp
    simp at hp
  | true =>
    intro hp
    simp only [if_pos rfl] at hp
    rcases mem_buildLocal _ _ _ _ hp with h' | h'
    · have h2 := (List.mem_filter.mp (List.mem_filter.mp h').1).2
      exact absurd hk (of_decide_eq_true h2)
    · simp at h'

/-- C7 witness: deleting `a.md` from a two-file directory removes its
resource from the next listing. -/
theorem C7_witness :
    let d : Loc.Dir := ⟨true, ["a.md", "b.md"], fun _ => Loc.FileRead.ok "x"⟩
    let dAfter : Loc.Dir :=
      { present := d.present, files := d.files.filter (fun g => ¬ g = "a.md"),
        content := d.content }
    Loc.ruleToResource "b.md" ⟨"b.md", "b", "x"⟩ ∈ Loc.listResources dAfter ∧
    ¬ (Loc.ruleToResource "b.md" ⟨"b.md", "b", "x"⟩).uri = "rule:///" ++ "a.md" := by
  intro d dAfter
  exact ⟨by decide, (C7_local_delete_visible d "a.md").2
    (Loc.ruleToResource "b.md" ⟨"b.md", "b", "x"⟩) (by decide)⟩

/-- C8: the `setInterval` callback of `setupGitHubPolling` starts a
refresh cycle unconditionally on every timer fire — there is no
in-flight guard — so a state with two concurrently running refresh
cycles is reachable, contradicting "the polling timer is never
re-entered". -/
theorem C8_timer_overlap_reachable :
    (∀ s : Remote.SchedState, Remote.SchedStep s ⟨s.inFlight + 1⟩) ∧
    Relation.ReflTransGen Remote.SchedStep ⟨0⟩ ⟨2⟩ := by
  constructor
  · exact fun s => Remote.SchedStep.timerFire s
  · exact Relation.ReflTransGen.tail
      (Relation.ReflTransGen.tail Relation.ReflTransGen.refl
        (Remote.SchedStep.timerFire ⟨0⟩))
      (Remote.SchedStep.timerFire ⟨1⟩)

end RooRules
